/-
Verification of the easyBuy backend (src/index.js) against its
natural-language specification.

The JS handlers are shallowly embedded as pure Lean functions:
- mongoose documents become Lean structures,
- the three catalog tables (`fakeProductDatabase`, `fakeCouponDatabase`,
  `fakeShippingFeeDatabase`) become lookup functions `String → Option _`
  (the product table is loaded from a remote file at startup, so it stays
  an abstract parameter; the coupon and shipping tables are hard-coded in
  the source and are reproduced concretely below),
- a handler that returns an HTTP error before `user.save()` becomes a
  function returning the untouched user aggregate paired with an error
  (`DbUser × Except ApiErr _`), so "persisted state unchanged on error"
  is visible in the result,
- JS numbers carried by the data model (prices, quantities, fees,
  discounts) are modelled as `Int`; the review rating arrives as form
  text coerced to a JS number, so the parsed rating input is modelled as
  `Option Rat` (`none` = missing or `isNaN`), and `parseInt` on a
  numeric string in `[1,5]` is `Rat.floor`,
- external cryptographic functions (`jwt.verify`, `bcrypt.compare`) are
  abstract boolean-valued parameters.
-/
import Mathlib

namespace EasyBuy

/-- A record of `fakeProductDatabase` (the remote catalog): name, image and
unit price, spread into a cart/order item by `{...info}`. -/
structure ProductInfo where
  name : String
  imageUrl : String
  price : Int
deriving DecidableEq, Repr

/-- A record of `fakeCouponDatabase`. -/
structure Coupon where
  code : String
  discount : Int
deriving DecidableEq, Repr

/-- A record of `fakeShippingFeeDatabase` (source spells the fee field
`ShippingFee`). -/
structure ShippingInfo where
  shippingMethod : String
  ShippingFee : Int
deriving DecidableEq, Repr

/-- One entry of `cartSchema.products` / `orderSchema.products`:
`{ productId, name, imageUrl, price, quantity }`. -/
structure CartItem where
  productId : String
  name : String
  imageUrl : String
  price : Int
  quantity : Int
deriving DecidableEq, Repr

/-- An image blob (`Buffer`), a raw byte list. -/
abbrev Blob := List Nat

/-- The `review` sub-document of `orderSchema`: comment, rating, image
blobs.  In mongoose each field may be absent, hence the `Option` on
`rating`. -/
structure Review where
  comment : String
  rating : Option Int
  imageFiles : List Blob
deriving DecidableEq, Repr

/-- One entry of `userSchema.orders` (`orderSchema`).  `_id` is the
subdocument id mongoose assigns; `createdAt` is the timestamp. -/
structure Order where
  _id : Nat
  products : List CartItem
  shippingMethod : String
  createdAt : Nat
  totalAmount : Int
  shippingFee : Int
  coupon : Option Coupon
  review : Option Review
deriving DecidableEq, Repr

/-- The `User` mongoose document: email, bcrypt-hashed password, cart
(its single field `products`), orders, refresh-token allowlist. -/
structure DbUser where
  email : String
  password : String
  cart : List CartItem
  orders : List Order
  refreshTokens : List String
deriving DecidableEq, Repr

/-- Domain errors; each corresponds to one early `res.status(...)` return
of a handler. -/
inductive ApiErr where
  | badRequest            -- 400, missing field
  | forbidden             -- 403, bad credentials / unknown token
  | notFound              -- 404, user / order / item absent
  | invalidProduct (productId : String)  -- 400 `Invalid productId`
  | invalidShipping       -- 400 `Invalid shippingId`
  | invalidQuantity       -- 400 `Invalid quantity`
  | invalidRating         -- 400 `Rating must be a number from 1 to 5`
  | reviewExists          -- 400 `Review already exists`
deriving DecidableEq, Repr

/-- The hard-coded `fakeCouponDatabase` of the source. -/
def fakeCouponDatabase : String → Option Coupon := fun id =>
  if id = "123" then some ⟨"折扣20", 20⟩
  else if id = "456" then some ⟨"折扣100", 100⟩
  else if id = "789" then some ⟨"折扣200", 200⟩
  else none

/-- The hard-coded `fakeShippingFeeDatabase` of the source. -/
def fakeShippingFeeDatabase : String → Option ShippingInfo := fun id =>
  if id = "123" then some ⟨"超商", 60⟩
  else if id = "456" then some ⟨"宅配", 100⟩
  else if id = "789" then some ⟨"自取", 0⟩
  else none

/-! ### Cart manager (POST /cart, DELETE /cart, PUT /cart/:productId) -/

/-- The body of the POST /cart loop for one incoming `{productId, quantity}`
whose catalog record is `info`: if the cart already holds the product id,
increment the first such item's quantity (`existing.quantity += p.quantity`),
otherwise push `{...info, productId, quantity}` at the end. -/
def mergeAdd (cart : List CartItem) (pid : String) (qty : Int)
    (info : ProductInfo) : List CartItem :=
  match cart with
  | [] => [⟨pid, info.name, info.imageUrl, info.price, qty⟩]
  | item :: rest =>
    if item.productId = pid then
      { item with quantity := item.quantity + qty } :: rest
    else
      item :: mergeAdd rest pid qty info

/-- The `for (const p of products)` loop of POST /cart: resolve each id in
`fakeProductDatabase`; on the first unresolvable id stop with that id (the
handler returns 400 before `user.save()`), otherwise merge the item in. -/
def cartAddLoop (catalog : String → Option ProductInfo)
    (cart : List CartItem) :
    List (String × Int) → Except ApiErr (List CartItem)
  | [] => .ok cart
  | (pid, qty) :: rest =>
    match catalog pid with
    | none => .error (.invalidProduct pid)
    | some info => cartAddLoop catalog (mergeAdd cart pid qty info) rest

/-- POST /cart on the authenticated user's aggregate.  Returns the
persisted user (unchanged when the handler returned an error before
saving) and the handler's result. -/
def postCart (catalog : String → Option ProductInfo) (user : DbUser)
    (products : List (String × Int)) : DbUser × Except ApiErr (List CartItem) :=
  if products = [] then (user, .error .badRequest)
  else
    match cartAddLoop catalog user.cart products with
    | .error e => (user, .error e)
    | .ok c => ({ user with cart := c }, .ok c)

/-- DELETE /cart: filter out every item whose product id is in
`productIds`; 400 on an empty id list, 404 when nothing matched (in that
case the handler returns before saving, and the filtered cart equals the
original anyway). -/
def deleteCart (user : DbUser) (productIds : List String) :
    DbUser × Except ApiErr Nat :=
  if productIds = [] then (user, .error .badRequest)
  else
    let kept := user.cart.filter (fun p => ¬ productIds.contains p.productId)
    let deletedCount := user.cart.length - kept.length
    if deletedCount = 0 then (user, .error .notFound)
    else ({ user with cart := kept }, .ok deletedCount)

/-- Overwrite the quantity of the first cart item with the given product
id (`item.quantity = quantity` on the result of `find`). -/
def setQty (cart : List CartItem) (pid : String) (qty : Int) : List CartItem :=
  match cart with
  | [] => []
  | item :: rest =>
    if item.productId = pid then { item with quantity := qty } :: rest
    else item :: setQty rest pid qty

/-- PUT /cart/:productId: 400 unless the quantity is a number ≥ 1, 404
when the product is not in the cart, else overwrite the quantity. -/
def putCart (user : DbUser) (pid : String) (qty : Int) :
    DbUser × Except ApiErr Unit :=
  if qty < 1 then (user, .error .invalidQuantity)
  else if user.cart.any (fun p => p.productId = pid) then
    ({ user with cart := setQty user.cart pid qty }, .ok ())
  else (user, .error .notFound)

/-! ### Order manager (POST /order, PUT /order/:orderId, DELETE /order/:orderId) -/

/-- The spec's pricing formula (§3 / §8):
`totalAmount = Σ(item.price × item.quantity) + shippingFee − coupon.discount (or 0)`.
Stated from the spec's words, to be compared with what `create`/`update`
actually store. -/
def specTotalFormula (items : List CartItem) (fee : Int)
    (coupon : Option Coupon) : Int :=
  (items.map (fun it => it.price * it.quantity)).sum + fee -
    (match coupon with | some c => c.discount | none => 0)

/-- JS truthiness of `coupon?.discount`: the discount is subtracted only
when a coupon is present and its discount is non-zero. -/
def couponDeduction (coupon : Option Coupon) : Int :=
  match coupon with
  | some c => if c.discount = 0 then 0 else c.discount
  | none => 0

/-- The shared item-resolution loop of POST /order and PUT /order: build
`fullProducts` (`{...info, productId, quantity}` in request order) and the
running `totalAmount` of `info.price * p.quantity`; fail with the first
unresolvable product id. -/
def resolveItems (catalog : String → Option ProductInfo) :
    List (String × Int) → Except ApiErr (List CartItem × Int)
  | [] => .ok ([], 0)
  | (pid, qty) :: rest =>
    match catalog pid with
    | none => .error (.invalidProduct pid)
    | some info =>
      match resolveItems catalog rest with
      | .error e => .error e
      | .ok (ps, t) =>
        .ok (⟨pid, info.name, info.imageUrl, info.price, qty⟩ :: ps,
             info.price * qty + t)

/-- POST /order.  Checks, in source order: resolve `couponId` with
`|| null` (an unresolvable coupon is soft-failed to "no coupon"); resolve
`shippingId`, 400 `Invalid shippingId` when unresolvable; 400 when the
product list is empty; resolve every product, 400 on the first
unresolvable id; then push the new order and save.  `now` is the
`new Date()` timestamp and `newId` the subdocument id mongoose assigns. -/
def postOrder (catalog : String → Option ProductInfo)
    (couponDb : String → Option Coupon)
    (shipDb : String → Option ShippingInfo)
    (user : DbUser) (products : List (String × Int))
    (couponId shippingId : Option String) (now newId : Nat) :
    DbUser × Except ApiErr Nat :=
  let coupon := couponId.bind couponDb
  match shippingId.bind shipDb with
  | none => (user, .error .invalidShipping)
  | some shippingData =>
    if products = [] then (user, .error .badRequest)
    else
      match resolveItems catalog products with
      | .error e => (user, .error e)
      | .ok (fullProducts, subtotal) =>
        let totalAmount := subtotal + shippingData.ShippingFee - couponDeduction coupon
        let o : Order :=
          { _id := newId, products := fullProducts,
            shippingMethod := shippingData.shippingMethod, createdAt := now,
            totalAmount := totalAmount, shippingFee := shippingData.ShippingFee,
            coupon := coupon, review := none }
        ({ user with orders := user.orders ++ [o] }, .ok newId)

/-- `user.orders.id(orderId)`: the first order with the given
subdocument id. -/
def findOrder (orders : List Order) (oid : Nat) : Option Order :=
  match orders with
  | [] => none
  | o :: rest => if o._id = oid then some o else findOrder rest oid

/-- Mutate the first order with the given id in place. -/
def updateOrder (orders : List Order) (oid : Nat) (f : Order → Order) :
    List Order :=
  match orders with
  | [] => []
  | o :: rest =>
    if o._id = oid then f o :: rest else o :: updateOrder rest oid f

/-- PUT /order/:orderId.  404 when the order is absent; re-resolves every
product (400 on the first unresolvable id, before any field is
overwritten); recomputes the total from the caller-supplied `shippingFee`
and `coupon` (the body's `shippingFee` is modelled as an `Int`, so the
`typeof shippingFee === 'number'` guard holds); overwrites products,
shipping method, fee, total, coupon and timestamp; the review field is
untouched. -/
def putOrder (catalog : String → Option ProductInfo) (user : DbUser)
    (oid : Nat) (products : List (String × Int)) (shippingMethod : String)
    (shippingFee : Int) (coupon : Option Coupon) (now : Nat) :
    DbUser × Except ApiErr Unit :=
  match findOrder user.orders oid with
  | none => (user, .error .notFound)
  | some _ =>
    match resolveItems catalog products with
    | .error e => (user, .error e)
    | .ok (fullProducts, subtotal) =>
      let totalAmount := subtotal + shippingFee - couponDeduction coupon
      ({ user with orders := updateOrder user.orders oid (fun o =>
          { o with products := fullProducts, shippingMethod := shippingMethod,
                   shippingFee := shippingFee, totalAmount := totalAmount,
                   coupon := coupon, createdAt := now }) },
       .ok ())

/-- DELETE /order/:orderId: drop every order with the given id, 404 when
none matched. -/
def deleteOrder (user : DbUser) (oid : Nat) : DbUser × Except ApiErr Unit :=
  let kept := user.orders.filter (fun o => ¬ o._id = oid)
  if kept.length = user.orders.length then (user, .error .notFound)
  else ({ user with orders := kept }, .ok ())

/-! ### Review attachment (POST /order/:orderId/review, DELETE …/review) -/

/-- JS truthiness of
`order.review && (comment.length > 0 || rating || imageFiles.length > 0)`:
the guard that makes a review count as already present. -/
def reviewNonEmpty : Option Review → Bool
  | none => false
  | some rev =>
    rev.comment ≠ "" ||
    (match rev.rating with | some r => r ≠ 0 | none => false) ||
    rev.imageFiles ≠ []

/-- POST /order/:orderId/review.  In source order: reject the rating
unless it is a number in [1,5] (`!rating || isNaN(rating) || rating < 1 ||
rating > 5`; a missing or non-numeric rating is `none`, and a rating of 0
is falsy hence also rejected by `rating < 1`); 404 when the order is
absent; 400 `Review already exists` when the order already has a
non-empty review; else store the review with `comment || ''`,
`parseInt(rating)` (truncation, i.e. `Rat.floor` on a non-negative
number) and the uploaded blobs. -/
def postReview (user : DbUser) (oid : Nat) (comment : Option String)
    (rating : Option Rat) (images : List Blob) :
    DbUser × Except ApiErr Unit :=
  match rating with
  | none => (user, .error .invalidRating)
  | some r =>
    if r < 1 ∨ 5 < r then (user, .error .invalidRating)
    else
      match findOrder user.orders oid with
      | none => (user, .error .notFound)
      | some o =>
        if reviewNonEmpty o.review then (user, .error .reviewExists)
        else
          ({ user with orders := updateOrder user.orders oid (fun o₁ =>
              { o₁ with
                review := some (Review.mk (comment.getD "") (some r.floor) images) }) },
           .ok ())

/-- DELETE /order/:orderId/review: 404 when the order or its review is
absent; else clear the review (`order.review = undefined`). -/
def deleteReview (user : DbUser) (oid : Nat) : DbUser × Except ApiErr Unit :=
  match findOrder user.orders oid with
  | none => (user, .error .notFound)
  | some o =>
    match o.review with
    | none => (user, .error .notFound)
    | some _ =>
      ({ user with orders := updateOrder user.orders oid (fun o₁ =>
          { o₁ with review := none }) },
       .ok ())

/-! ### Token service (POST /login, POST /refresh, POST /logout)

These three handlers query the whole user collection
(`User.findOne({...})`), so they act on a `List DbUser`. -/

/-- `User.findOne({ email })` then `bcrypt.compare`: on the first user
with the matching email, check the password and push the freshly signed
refresh token; 403 when no user matches or the password check fails.
`check pw hash` is the abstract `bcrypt.compare`. -/
def loginDb (check : String → String → Bool) (email pw newTok : String) :
    List DbUser → Except ApiErr (List DbUser)
  | [] => .error .forbidden
  | u :: rest =>
    if u.email = email then
      if check pw u.password then
        .ok ({ u with refreshTokens := u.refreshTokens ++ [newTok] } :: rest)
      else .error .forbidden
    else
      match loginDb check email pw newTok rest with
      | .error e => .error e
      | .ok rest₁ => .ok (u :: rest₁)

/-- POST /login: the persisted collection after a successful login,
paired with the refresh token handed back. -/
def login (check : String → String → Bool) (db : List DbUser)
    (email pw newTok : String) : Except ApiErr (List DbUser × String) :=
  match loginDb check email pw newTok db with
  | .error e => .error e
  | .ok db₁ => .ok (db₁, newTok)

/-- `User.findOne({ refreshTokens: token })` then, in one save, drop every
copy of the old token and push the new one
(`user.refreshTokens = filter(t ≠ token); push(newToken)`). -/
def rotateDb (tok newTok : String) : List DbUser → Option (List DbUser)
  | [] => none
  | u :: rest =>
    if u.refreshTokens.contains tok then
      some ({ u with refreshTokens :=
                (u.refreshTokens.filter (fun t => t ≠ tok)) ++ [newTok] } :: rest)
    else
      (rotateDb tok newTok rest).map (u :: ·)

/-- POST /refresh: 401 on a missing token (empty header), 403 when no
user holds the token or `jwt.verify` rejects it (`vf` is the abstract
verifier); otherwise the rotated collection and the new refresh token,
persisted in a single `user.save()`. -/
def rotate (vf : String → Bool) (db : List DbUser) (tok newTok : String) :
    Except ApiErr (List DbUser × String) :=
  if tok = "" then .error .badRequest
  else
    match rotateDb tok newTok db with
    | none => .error .forbidden
    | some db₁ => if vf tok then .ok (db₁, newTok) else .error .forbidden

/-- `User.findOne({ refreshTokens: token })` then
`user.refreshTokens = filter(t ≠ token)`: drop the token from the first
user holding it. -/
def logoutDb (tok : String) : List DbUser → Option (List DbUser)
  | [] => none
  | u :: rest =>
    if u.refreshTokens.contains tok then
      some ({ u with refreshTokens := u.refreshTokens.filter (fun t => t ≠ tok) } :: rest)
    else
      (logoutDb tok rest).map (u :: ·)

/-- POST /logout: 400 on a missing (empty) token, 403 when no user holds
it, otherwise remove it from its owner's set and save. -/
def logout (db : List DbUser) (tok : String) : Except ApiErr (List DbUser) :=
  if tok = "" then .error .badRequest
  else
    match logoutDb tok db with
    | none => .error .forbidden
    | some db₁ => .ok db₁

/-! ### Concrete fixtures for witnesses -/

/-- A tiny concrete product catalog standing in for the remotely loaded
`fakeProductDatabase`, for evaluating the theorems on closed inputs. -/
def demoCatalog : String → Option ProductInfo := fun pid =>
  if pid = "A" then some ⟨"Apple", "img-a", 100⟩
  else if pid = "B" then some ⟨"Bread", "img-b", 50⟩
  else none

/-- A user with an empty cart, no orders and no sessions. -/
def demoUser : DbUser := ⟨"a@b.c", "hash", [], [], []⟩

/-- An order without a review. -/
def demoOrder : Order := ⟨1, [⟨"A", "Apple", "img-a", 100, 2⟩], "宅配", 5, 300, 100, none, none⟩

/-- A user holding one reviewless order. -/
def demoUserOrder : DbUser := ⟨"a@b.c", "hash", [], [demoOrder], []⟩

/-- The demo order carrying a non-empty review. -/
def demoOrderReviewed : Order := { demoOrder with review := some ⟨"great", some 5, []⟩ }

/-- A user holding one reviewed order. -/
def demoUserReviewed : DbUser := ⟨"a@b.c", "hash", [], [demoOrderReviewed], []⟩

/-! ### Lemmas about the cart merge loop -/

/-- The updated head of a merge keeps its product id. -/
lemma mergeAdd_map_productId (pid : String) (qty : Int) (info : ProductInfo) :
    ∀ cart : List CartItem, (mergeAdd cart pid qty info).map (·.productId) =
      if pid ∈ cart.map (·.productId) then cart.map (·.productId)
      else cart.map (·.productId) ++ [pid]
  | [] => by simp [mergeAdd]
  | item :: rest => by
    by_cases h : item.productId = pid
    · simp [mergeAdd, h]
    · have ih := mergeAdd_map_productId pid qty info rest
      by_cases hmem : pid ∈ rest.map (·.productId)
      · simp [mergeAdd, h, hmem, Ne.symm h] at ih ⊢
        exact ih
      · simp [mergeAdd, h, hmem, Ne.symm h] at ih ⊢
        exact ih

/-- Merging keeps product ids unique. -/
lemma mergeAdd_nodup {cart : List CartItem} (pid : String) (qty : Int)
    (info : ProductInfo) (h : (cart.map (·.productId)).Nodup) :
    ((mergeAdd cart pid qty info).map (·.productId)).Nodup := by
  rw [mergeAdd_map_productId]
  split
  · exact h
  · next hmem =>
    refine List.Nodup.append h (List.nodup_singleton pid) ?_
    intro a ha hb
    simp only [List.mem_singleton] at hb
    exact hmem (hb ▸ ha)

/-- Merging an item with quantity ≥ 1 keeps every quantity ≥ 1. -/
lemma mergeAdd_quantity (pid : String) (info : ProductInfo) {qty : Int}
    (hq : 1 ≤ qty) :
    ∀ cart : List CartItem, (∀ it ∈ cart, 1 ≤ it.quantity) →
      ∀ it ∈ mergeAdd cart pid qty info, 1 ≤ it.quantity := by
  intro cart
  induction cart with
  | nil =>
    intro _ it hit
    simp only [mergeAdd, List.mem_singleton] at hit
    subst hit
    simpa using hq
  | cons item rest ih =>
    intro hc it hit
    by_cases h : item.productId = pid
    · simp only [mergeAdd, if_pos h, List.mem_cons] at hit
      rcases hit with rfl | hit
      · have h1 : 1 ≤ item.quantity := hc item (by simp)
        simp only []
        omega
      · exact hc it (by simp [hit])
    · simp only [mergeAdd, if_neg h, List.mem_cons] at hit
      rcases hit with rfl | hit
      · exact hc it (by simp)
      · exact ih (fun v hv => hc v (by simp [hv])) it hit

/-- Merging a product id absent from the cart appends the snapshot item. -/
lemma mergeAdd_of_not_mem {pid : String} {qty : Int} {info : ProductInfo} :
    ∀ {cart : List CartItem}, (∀ it ∈ cart, it.productId ≠ pid) →
      mergeAdd cart pid qty info =
        cart ++ [⟨pid, info.name, info.imageUrl, info.price, qty⟩]
  | [], _ => by simp [mergeAdd]
  | item :: rest, h => by
    have hne : item.productId ≠ pid := h item (by simp)
    simp only [mergeAdd, if_neg hne, List.cons_append, List.cons.injEq, true_and]
    exact mergeAdd_of_not_mem (fun it hit => h it (by simp [hit]))

/-- Merging a product id held by the cart increments the first holder's
quantity and appends nothing. -/
lemma mergeAdd_of_mem {pid : String} {qty : Int} {info : ProductInfo}
    {it₀ : CartItem} (hpid : it₀.productId = pid) :
    ∀ (pre post : List CartItem), (∀ it ∈ pre, it.productId ≠ pid) →
      mergeAdd (pre ++ it₀ :: post) pid qty info =
        pre ++ { it₀ with quantity := it₀.quantity + qty } :: post
  | [], post, _ => by simp [mergeAdd, hpid]
  | item :: pre, post, h => by
    have hne : item.productId ≠ pid := h item (by simp)
    simp only [List.cons_append, mergeAdd, if_neg hne, List.cons.injEq, true_and]
    exact mergeAdd_of_mem hpid pre post (fun it hit => h it (by simp [hit]))

/-- The add loop keeps product ids unique, for every incoming item list
it accepts (no condition on the incoming quantities). -/
lemma cartAddLoop_ok_nodup (catalog : String → Option ProductInfo) :
    ∀ (reqs : List (String × Int)) (cart : List CartItem),
      (cart.map (·.productId)).Nodup →
      ∀ c₁, cartAddLoop catalog cart reqs = .ok c₁ →
        (c₁.map (·.productId)).Nodup
  | [], cart, hnd, c₁, h => by
    simp only [cartAddLoop] at h
    cases h
    exact hnd
  | (pid, qty) :: rest, cart, hnd, c₁, h => by
    simp only [cartAddLoop] at h
    cases hcat : catalog pid with
    | none => rw [hcat] at h; cases h
    | some info =>
      rw [hcat] at h
      exact cartAddLoop_ok_nodup catalog rest (mergeAdd cart pid qty info)
        (mergeAdd_nodup pid qty info hnd) c₁ h

/-- The add loop keeps every quantity ≥ 1 when every incoming quantity
is ≥ 1. -/
lemma cartAddLoop_ok_quantity (catalog : String → Option ProductInfo) :
    ∀ (reqs : List (String × Int)) (cart : List CartItem),
      (∀ r ∈ reqs, 1 ≤ r.2) → (∀ it ∈ cart, 1 ≤ it.quantity) →
      ∀ c₁, cartAddLoop catalog cart reqs = .ok c₁ →
        ∀ it ∈ c₁, 1 ≤ it.quantity
  | [], cart, _, hqty, c₁, h => by
    simp only [cartAddLoop] at h
    cases h
    exact hqty
  | (pid, qty) :: rest, cart, hq, hqty, c₁, h => by
    simp only [cartAddLoop] at h
    cases hcat : catalog pid with
    | none => rw [hcat] at h; cases h
    | some info =>
      rw [hcat] at h
      exact cartAddLoop_ok_quantity catalog rest (mergeAdd cart pid qty info)
        (fun r hr => hq r (by simp [hr]))
        (mergeAdd_quantity pid info (hq (pid, qty) (by simp)) cart hqty)
        c₁ h

/-- The add loop fails with the first unresolvable product id. -/
lemma cartAddLoop_error_first (catalog : String → Option ProductInfo) :
    ∀ (reqs : List (String × Int)) (cart : List CartItem) (r₀ : String × Int),
      reqs.find? (fun r => (catalog r.1).isNone) = some r₀ →
      cartAddLoop catalog cart reqs = .error (.invalidProduct r₀.1)
  | [], _, _, h => by simp at h
  | (pid, qty) :: rest, cart, r₀, h => by
    simp only [List.find?] at h
    cases hcat : catalog pid with
    | none =>
      rw [hcat] at h
      simp only [Option.isNone_none] at h
      cases h
      simp [cartAddLoop, hcat]
    | some info =>
      rw [hcat] at h
      simp only [Option.isNone_some] at h
      simp only [cartAddLoop, hcat]
      exact cartAddLoop_error_first catalog rest (mergeAdd cart pid qty info) r₀ h

/-- `setQty` never changes the sequence of product ids. -/
lemma setQty_map_productId (pid : String) (q : Int) :
    ∀ cart : List CartItem,
      (setQty cart pid q).map (·.productId) = cart.map (·.productId)
  | [] => rfl
  | item :: rest => by
    by_cases h : item.productId = pid
    · simp [setQty, h]
    · simp [setQty, h, setQty_map_productId pid q rest]

/-- `setQty` with a quantity ≥ 1 keeps every quantity ≥ 1. -/
lemma setQty_quantity (pid : String) {q : Int} (hq : 1 ≤ q) :
    ∀ cart : List CartItem, (∀ it ∈ cart, 1 ≤ it.quantity) →
      ∀ it ∈ setQty cart pid q, 1 ≤ it.quantity
  | [], _ => by simp [setQty]
  | item :: rest, hc => by
    intro it hit
    by_cases h : item.productId = pid
    · simp only [setQty, if_pos h, List.mem_cons] at hit
      rcases hit with rfl | hit
      · simpa using hq
      · exact hc it (by simp [hit])
    · simp only [setQty, if_neg h, List.mem_cons] at hit
      rcases hit with rfl | hit
      · exact hc it (by simp)
      · exact setQty_quantity pid hq rest (fun v hv => hc v (by simp [hv])) it hit

/-- C4.  Adding a product id the cart already holds increments the first
holding item's quantity in place and appends nothing; adding a fresh
product id appends the catalog snapshot plus the requested quantity, and
adding the same id twice leaves one item carrying the sum of both
requested quantities. -/
theorem cart_add_merges_duplicates
    (catalog : String → Option ProductInfo) (user : DbUser) (pid : String)
    (info : ProductInfo) (q₁ q₂ : Int)
    (hres : catalog pid = some info) :
    (∀ pre it₀ post, user.cart = pre ++ it₀ :: post →
        (∀ it ∈ pre, it.productId ≠ pid) → it₀.productId = pid →
        postCart catalog user [(pid, q₁)] =
          ({ user with cart := pre ++ { it₀ with quantity := it₀.quantity + q₁ } :: post },
           .ok (pre ++ { it₀ with quantity := it₀.quantity + q₁ } :: post))) ∧
    ((∀ it ∈ user.cart, it.productId ≠ pid) →
        postCart catalog user [(pid, q₁)] =
          ({ user with cart := user.cart ++ [⟨pid, info.name, info.imageUrl, info.price, q₁⟩] },
           .ok (user.cart ++ [⟨pid, info.name, info.imageUrl, info.price, q₁⟩])) ∧
        postCart catalog
            { user with cart := user.cart ++ [⟨pid, info.name, info.imageUrl, info.price, q₁⟩] }
            [(pid, q₂)] =
          ({ user with cart := user.cart ++ [⟨pid, info.name, info.imageUrl, info.price, q₁ + q₂⟩] },
           .ok (user.cart ++ [⟨pid, info.name, info.imageUrl, info.price, q₁ + q₂⟩]))) := by
  have hloop : ∀ (c : List CartItem) (q : Int),
      cartAddLoop catalog c [(pid, q)] = .ok (mergeAdd c pid q info) := by
    intro c q
    simp [cartAddLoop, hres]
  constructor
  · intro pre it₀ post hdec hpre hpid
    simp only [postCart, if_neg (by simp : ¬([(pid, q₁)] = [])), hloop, hdec,
      mergeAdd_of_mem hpid pre post hpre]
  · intro habs
    have h₁ := @mergeAdd_of_not_mem pid q₁ info user.cart habs
    have h₂ := @mergeAdd_of_mem pid q₂ info
      ⟨pid, info.name, info.imageUrl, info.price, q₁⟩ rfl
      user.cart [] habs
    constructor
    · simp only [postCart, if_neg (by simp : ¬([(pid, q₁)] = [])), hloop, h₁]
    · simp only [postCart, if_neg (by simp : ¬([(pid, q₂)] = [])), hloop, h₂]

/-- C4 witness: the empty demo cart receives "A" twice (quantities 2 and
3) and ends with the single item of quantity 5 from the spec's example
scenario. -/
theorem cart_add_merges_duplicates_witness :
    postCart demoCatalog demoUser [("A", 2)] =
      ({ demoUser with cart := [⟨"A", "Apple", "img-a", 100, 2⟩] },
       .ok [⟨"A", "Apple", "img-a", 100, 2⟩]) ∧
    postCart demoCatalog { demoUser with cart := [⟨"A", "Apple", "img-a", 100, 2⟩] } [("A", 3)] =
      ({ demoUser with cart := [⟨"A", "Apple", "img-a", 100, 5⟩] },
       .ok [⟨"A", "Apple", "img-a", 100, 5⟩]) := by
  have h := (cart_add_merges_duplicates demoCatalog demoUser "A"
    ⟨"Apple", "img-a", 100⟩ 2 3 (by rfl)).2 (by simp [demoUser])
  simpa [demoUser] using h

/-- C9 counterexample: POST /cart never validates the incoming quantity,
so adding "A" with quantity 0 is accepted and stores a cart item whose
quantity is below 1, violating the claimed invariant. -/
theorem cart_quantity_invariant_cex :
    (postCart demoCatalog demoUser [("A", 0)]).2 =
      .ok [⟨"A", "Apple", "img-a", 100, 0⟩] ∧
    ∃ it ∈ (postCart demoCatalog demoUser [("A", 0)]).1.cart, it.quantity < 1 := by
  refine ⟨rfl, ⟨⟨"A", "Apple", "img-a", 100, 0⟩, ?_, by norm_num⟩⟩
  show _ ∈ (postCart demoCatalog demoUser [("A", 0)]).1.cart
  simp [postCart, demoUser, demoCatalog, cartAddLoop, mergeAdd]

/-- C9 (amended).  Uniqueness of product ids is preserved by every cart
operation for every input it accepts — addOrMerge included, with no
condition on the incoming quantities; quantity ≥ 1 is preserved
unconditionally by remove and setQuantity, but by addOrMerge only when
every incoming quantity is ≥ 1, since the handler never validates the
incoming quantities. -/
theorem cart_invariant_preservation_amended
    (catalog : String → Option ProductInfo) (user : DbUser) :
    ((user.cart.map (·.productId)).Nodup →
      (∀ reqs user₁ c, postCart catalog user reqs = (user₁, .ok c) →
          (user₁.cart.map (·.productId)).Nodup) ∧
      (∀ pids user₁ n, deleteCart user pids = (user₁, .ok n) →
          (user₁.cart.map (·.productId)).Nodup) ∧
      (∀ pid qty user₁, putCart user pid qty = (user₁, .ok ()) →
          (user₁.cart.map (·.productId)).Nodup)) ∧
    ((∀ it ∈ user.cart, 1 ≤ it.quantity) →
      (∀ reqs user₁ c, (∀ r ∈ reqs, 1 ≤ r.2) →
          postCart catalog user reqs = (user₁, .ok c) →
          ∀ it ∈ user₁.cart, 1 ≤ it.quantity) ∧
      (∀ pids user₁ n, deleteCart user pids = (user₁, .ok n) →
          ∀ it ∈ user₁.cart, 1 ≤ it.quantity) ∧
      (∀ pid qty user₁, putCart user pid qty = (user₁, .ok ()) →
          ∀ it ∈ user₁.cart, 1 ≤ it.quantity)) := by
  have hpost : ∀ reqs user₁ c, postCart catalog user reqs = (user₁, .ok c) →
      cartAddLoop catalog user.cart reqs = .ok c ∧
      user₁ = { user with cart := c } := by
    intro reqs user₁ c hrun
    simp only [postCart] at hrun
    split at hrun
    · simp at hrun
    · cases hloop : cartAddLoop catalog user.cart reqs with
      | error e => rw [hloop] at hrun; simp at hrun
      | ok c₁ =>
        rw [hloop] at hrun
        rw [Prod.mk.injEq, Except.ok.injEq] at hrun
        obtain ⟨h1, h2⟩ := hrun
        subst h2
        exact ⟨rfl, h1.symm⟩
  have hdel : ∀ pids user₁ n, deleteCart user pids = (user₁, .ok n) →
      user₁ = { user with
        cart := user.cart.filter (fun p => ¬ pids.contains p.productId) } := by
    intro pids user₁ n hrun
    simp only [deleteCart] at hrun
    split at hrun
    · simp at hrun
    · split at hrun
      · simp at hrun
      · rw [Prod.mk.injEq] at hrun
        exact hrun.1.symm
  have hput : ∀ pid qty user₁, putCart user pid qty = (user₁, .ok ()) →
      1 ≤ qty ∧ user₁ = { user with cart := setQty user.cart pid qty } := by
    intro pid qty user₁ hrun
    simp only [putCart] at hrun
    split at hrun
    · simp at hrun
    · split at hrun
      · rw [Prod.mk.injEq] at hrun
        refine ⟨by omega, hrun.1.symm⟩
      · simp at hrun
  constructor
  · intro hnd
    refine ⟨?_, ?_, ?_⟩
    · intro reqs user₁ c hrun
      obtain ⟨hloop, rfl⟩ := hpost reqs user₁ c hrun
      exact cartAddLoop_ok_nodup catalog reqs user.cart hnd c hloop
    · intro pids user₁ n hrun
      obtain rfl := hdel pids user₁ n hrun
      exact hnd.sublist (List.Sublist.map _ (List.filter_sublist user.cart))
    · intro pid qty user₁ hrun
      obtain ⟨hq, rfl⟩ := hput pid qty user₁ hrun
      simpa [setQty_map_productId] using hnd
  · intro hqty
    refine ⟨?_, ?_, ?_⟩
    · intro reqs user₁ c hq hrun
      obtain ⟨hloop, rfl⟩ := hpost reqs user₁ c hrun
      exact cartAddLoop_ok_quantity catalog reqs user.cart hq hqty c hloop
    · intro pids user₁ n hrun
      obtain rfl := hdel pids user₁ n hrun
      exact fun it hit => hqty it (List.mem_of_mem_filter hit)
    · intro pid qty user₁ hrun
      obtain ⟨hq, rfl⟩ := hput pid qty user₁ hrun
      exact setQty_quantity pid hq user.cart hqty

/-- C9 amended witness: an accepted add with quantity 0 still keeps
the product ids unique, and a quantity update to 7 and a removal keep
every quantity ≥ 1. -/
theorem cart_invariant_preservation_amended_witness :
    (((postCart demoCatalog demoUser [("A", 0), ("B", 2)]).1.cart.map
        (·.productId)).Nodup) ∧
    (∀ it ∈ (putCart { demoUser with
        cart := [⟨"A", "Apple", "img-a", 100, 2⟩] } "A" 7).1.cart,
      1 ≤ it.quantity) ∧
    (∀ it ∈ (deleteCart { demoUser with
        cart := [⟨"A", "Apple", "img-a", 100, 2⟩] } ["A"]).1.cart,
      1 ≤ it.quantity) := by
  refine ⟨?_, ?_, ?_⟩
  · have h := ((cart_invariant_preservation_amended demoCatalog demoUser).1
      (by simp [demoUser])).1 [("A", 0), ("B", 2)]
      { demoUser with cart :=
          [⟨"A", "Apple", "img-a", 100, 0⟩, ⟨"B", "Bread", "img-b", 50, 2⟩] }
      [⟨"A", "Apple", "img-a", 100, 0⟩, ⟨"B", "Bread", "img-b", 50, 2⟩]
      (by simp [postCart, demoUser, demoCatalog, cartAddLoop, mergeAdd])
    exact h
  · have h := ((cart_invariant_preservation_amended demoCatalog
      { demoUser with cart := [⟨"A", "Apple", "img-a", 100, 2⟩] }).2
      (by decide)).2.2
      "A" 7 { demoUser with cart := [⟨"A", "Apple", "img-a", 100, 7⟩] }
      (by simp [putCart, setQty])
    exact h
  · have h := ((cart_invariant_preservation_amended demoCatalog
      { demoUser with cart := [⟨"A", "Apple", "img-a", 100, 2⟩] }).2
      (by decide)).2.1
      ["A"] { demoUser with cart := [] } 1 (by simp [deleteCart])
    exact h

/-! ### Lemmas about the order manager -/

/-- The running total accumulated by the resolution loop is the sum of
`price × quantity` over the snapshot items it builds. -/
lemma resolveItems_subtotal (catalog : String → Option ProductInfo) :
    ∀ (reqs : List (String × Int)) (ps : List CartItem) (t : Int),
      resolveItems catalog reqs = .ok (ps, t) →
      t = (ps.map (fun it => it.price * it.quantity)).sum
  | [], ps, t, h => by
    simp only [resolveItems] at h
    cases h
    simp
  | (pid, qty) :: rest, ps, t, h => by
    simp only [resolveItems] at h
    cases hcat : catalog pid with
    | none => rw [hcat] at h; cases h
    | some info =>
      rw [hcat] at h
      cases hrec : resolveItems catalog rest with
      | error e => rw [hrec] at h; cases h
      | ok pr =>
        rw [hrec] at h
        cases h
        have ih := resolveItems_subtotal catalog rest pr.1 pr.2 (by rw [hrec])
        simp [ih]

/-- The resolution loop fails with the first unresolvable product id. -/
lemma resolveItems_error_first (catalog : String → Option ProductInfo) :
    ∀ (reqs : List (String × Int)) (r₀ : String × Int),
      reqs.find? (fun r => (catalog r.1).isNone) = some r₀ →
      resolveItems catalog reqs = .error (.invalidProduct r₀.1)
  | [], _, h => by simp at h
  | (pid, qty) :: rest, r₀, h => by
    simp only [List.find?] at h
    cases hcat : catalog pid with
    | none =>
      rw [hcat] at h
      simp only [Option.isNone_none] at h
      cases h
      simp [resolveItems, hcat]
    | some info =>
      rw [hcat] at h
      simp only [Option.isNone_some] at h
      simp only [resolveItems, hcat]
      rw [resolveItems_error_first catalog rest r₀ h]

/-- The truthiness-guarded deduction equals the spec's
`coupon.discount (or 0)`. -/
lemma couponDeduction_eq (cpn : Option Coupon) :
    couponDeduction cpn = (match cpn with | some c => c.discount | none => 0) := by
  cases cpn with
  | none => rfl
  | some c =>
    simp only [couponDeduction]
    split
    · omega
    · rfl

/-- `orders.id(oid)` after an in-place update of the order with id `oid`
returns the updated order, provided the update keeps the id. -/
lemma findOrder_updateOrder (f : Order → Order)
    (hf : ∀ o, (f o)._id = o._id) :
    ∀ (orders : List Order) (oid : Nat) (o : Order),
      findOrder orders oid = some o →
      findOrder (updateOrder orders oid f) oid = some (f o)
  | [], _, _, h => by simp [findOrder] at h
  | o₁ :: rest, oid, o, h => by
    by_cases hid : o₁._id = oid
    · simp only [findOrder, if_pos hid] at h
      cases h
      simp [updateOrder, if_pos hid, findOrder, hf, hid]
    · simp only [findOrder, if_neg hid] at h
      simp only [updateOrder, if_neg hid, findOrder]
      exact findOrder_updateOrder f hf rest oid o h

/-- C3.  Both a successful order creation and a successful order update
store a `totalAmount` equal to the spec formula
`Σ(price × quantity) + shippingFee − coupon.discount (or 0)` evaluated on
the stored item list, stored fee and stored coupon. -/
theorem totalAmount_matches_spec_formula
    (catalog : String → Option ProductInfo)
    (couponDb : String → Option Coupon) (shipDb : String → Option ShippingInfo)
    (user : DbUser) (products : List (String × Int))
    (couponId shippingId : Option String) (now newId : Nat) :
    (∀ user₁ ret,
        postOrder catalog couponDb shipDb user products couponId shippingId now newId =
          (user₁, .ok ret) →
        ∃ o, user₁.orders = user.orders ++ [o] ∧
          o.totalAmount = specTotalFormula o.products o.shippingFee o.coupon) ∧
    (∀ oid sm fee cpn user₁,
        putOrder catalog user oid products sm fee cpn now = (user₁, .ok ()) →
        ∃ o₁, findOrder user₁.orders oid = some o₁ ∧
          o₁.totalAmount = specTotalFormula o₁.products o₁.shippingFee o₁.coupon) := by
  constructor
  · intro user₁ ret hrun
    cases hship : shippingId.bind shipDb with
    | none => simp only [postOrder, hship] at hrun; simp at hrun
    | some ship =>
      by_cases hpp : products = []
      · simp only [postOrder, hship, if_pos hpp] at hrun; simp at hrun
      · cases hres : resolveItems catalog products with
        | error e =>
          simp only [postOrder, hship, if_neg hpp, hres] at hrun; simp at hrun
        | ok pr =>
          obtain ⟨ps, sub⟩ := pr
          simp only [postOrder, hship, if_neg hpp, hres] at hrun
          rw [Prod.mk.injEq] at hrun
          obtain ⟨h1, -⟩ := hrun
          subst h1
          refine ⟨_, rfl, ?_⟩
          simp only [specTotalFormula]
          rw [← resolveItems_subtotal catalog products ps sub hres,
            couponDeduction_eq]
  · intro oid sm fee cpn user₁ hrun
    cases hord : findOrder user.orders oid with
    | none => simp only [putOrder, hord] at hrun; simp at hrun
    | some o =>
      cases hres : resolveItems catalog products with
      | error e =>
        simp only [putOrder, hord, hres] at hrun; simp at hrun
      | ok pr =>
        obtain ⟨ps, sub⟩ := pr
        simp only [putOrder, hord, hres] at hrun
        rw [Prod.mk.injEq] at hrun
        obtain ⟨h1, -⟩ := hrun
        subst h1
        refine ⟨_, findOrder_updateOrder
          (fun o₂ =>
            { o₂ with
              products := ps
              shippingMethod := sm
              shippingFee := fee
              totalAmount := sub + fee - couponDeduction cpn
              coupon := cpn
              createdAt := now })
          (fun o₂ => rfl) user.orders oid o hord, ?_⟩
        simp only [specTotalFormula]
        rw [← resolveItems_subtotal catalog products ps sub hres,
          couponDeduction_eq]

/-- C3 witness: the spec's §8 scenario — one item priced 100, quantity 5,
shipping "123" (fee 60), coupon "123" (discount 20) — yields the stored
total 540, which matches the formula on the stored fields. -/
theorem totalAmount_matches_spec_formula_witness :
    (540 : Int) = specTotalFormula [⟨"A", "Apple", "img-a", 100, 5⟩] 60
      (some ⟨"折扣20", 20⟩) := by
  obtain ⟨o, ho, hval⟩ :=
    (totalAmount_matches_spec_formula demoCatalog fakeCouponDatabase
      fakeShippingFeeDatabase demoUser [("A", 5)] (some "123") (some "123") 7 1).1
      { demoUser with orders :=
          [⟨1, [⟨"A", "Apple", "img-a", 100, 5⟩], "超商", 7, 540, 60,
            some ⟨"折扣20", 20⟩, none⟩] }
      1 (by rfl)
  simp only [demoUser, List.nil_append] at ho
  rw [List.cons.injEq] at ho
  obtain ⟨h, -⟩ := ho
  subst h
  exact hval

/-- C5.  Whenever a batch contains an unresolvable product id, cart add,
order create (with resolvable shipping) and order update (on an existing
order) all fail with `InvalidProduct` naming the first unresolvable id,
and the persisted user aggregate is returned unchanged. -/
theorem batch_aborts_on_first_invalid_product
    (catalog : String → Option ProductInfo) (user : DbUser)
    (reqs : List (String × Int)) (r₀ : String × Int)
    (hfind : reqs.find? (fun r => (catalog r.1).isNone) = some r₀) :
    catalog r₀.1 = none ∧
    postCart catalog user reqs = (user, .error (.invalidProduct r₀.1)) ∧
    (∀ (couponDb : String → Option Coupon) (shipDb : String → Option ShippingInfo)
        (couponId shippingId : Option String) (now newId : Nat) ship,
        shippingId.bind shipDb = some ship →
        postOrder catalog couponDb shipDb user reqs couponId shippingId now newId =
          (user, .error (.invalidProduct r₀.1))) ∧
    (∀ (oid : Nat) (sm : String) (fee : Int) (cpn : Option Coupon) (now : Nat) o,
        findOrder user.orders oid = some o →
        putOrder catalog user oid reqs sm fee cpn now =
          (user, .error (.invalidProduct r₀.1))) := by
  have hne : reqs ≠ [] := by
    intro h
    rw [h] at hfind
    simp at hfind
  have hnone : catalog r₀.1 = none := by
    have := List.find?_some hfind
    simpa [Option.isNone_iff_eq_none] using this
  refine ⟨hnone, ?_, ?_, ?_⟩
  · simp only [postCart, if_neg hne,
      cartAddLoop_error_first catalog reqs user.cart r₀ hfind]
  · intro couponDb shipDb couponId shippingId now newId ship hship
    simp only [postOrder, hship, if_neg hne,
      resolveItems_error_first catalog reqs r₀ hfind]
  · intro oid sm fee cpn now o hord
    simp only [putOrder, hord, resolveItems_error_first catalog reqs r₀ hfind]

/-- C5 witness: a batch of a resolvable "A" followed by an unresolvable
"Z" aborts cart add and order create with `InvalidProduct "Z"`, leaving
the demo user untouched. -/
theorem batch_aborts_on_first_invalid_product_witness :
    postCart demoCatalog demoUser [("A", 1), ("Z", 2)] =
      (demoUser, .error (.invalidProduct "Z")) ∧
    postOrder demoCatalog fakeCouponDatabase fakeShippingFeeDatabase demoUser
        [("A", 1), ("Z", 2)] none (some "123") 0 1 =
      (demoUser, .error (.invalidProduct "Z")) := by
  have h := batch_aborts_on_first_invalid_product demoCatalog demoUser
    [("A", 1), ("Z", 2)] ("Z", 2) (by rfl)
  exact ⟨h.2.1, h.2.2.1 fakeCouponDatabase fakeShippingFeeDatabase none
    (some "123") 0 1 ⟨"超商", 60⟩ (by rfl)⟩

/-- C6.  An unresolvable shipping id always blocks order creation with
`InvalidShipping` and appends nothing; an unresolvable coupon id never
blocks creation — the order is still appended with no coupon and no
discount subtracted. -/
theorem coupon_soft_fails_shipping_blocks
    (catalog : String → Option ProductInfo)
    (couponDb : String → Option Coupon) (shipDb : String → Option ShippingInfo)
    (user : DbUser) (products : List (String × Int))
    (couponId shippingId : Option String) (now newId : Nat) :
    (shippingId.bind shipDb = none →
        postOrder catalog couponDb shipDb user products couponId shippingId now newId =
          (user, .error .invalidShipping)) ∧
    (∀ ship fullProducts subtotal,
        shippingId.bind shipDb = some ship →
        couponId.bind couponDb = none →
        products ≠ [] →
        resolveItems catalog products = .ok (fullProducts, subtotal) →
        postOrder catalog couponDb shipDb user products couponId shippingId now newId =
          ({ user with orders := user.orders ++
              [⟨newId, fullProducts, ship.shippingMethod, now,
                subtotal + ship.ShippingFee, ship.ShippingFee, none, none⟩] },
           .ok newId)) := by
  constructor
  · intro hship
    simp only [postOrder, hship]
  · intro ship fullProducts subtotal hship hcpn hne hres
    simp only [postOrder, hship, hcpn, if_neg hne, hres]
    simp [couponDeduction]

/-- C6 witness: shipping id "999" blocks creation for the demo user;
coupon id "999" with shipping "123" still creates the order, with no
coupon and total 500 + 60. -/
theorem coupon_soft_fails_shipping_blocks_witness :
    postOrder demoCatalog fakeCouponDatabase fakeShippingFeeDatabase demoUser
        [("A", 5)] (some "123") (some "999") 7 1 =
      (demoUser, .error .invalidShipping) ∧
    postOrder demoCatalog fakeCouponDatabase fakeShippingFeeDatabase demoUser
        [("A", 5)] (some "999") (some "123") 7 1 =
      ({ demoUser with orders :=
          [⟨1, [⟨"A", "Apple", "img-a", 100, 5⟩], "超商", 7, 560, 60, none, none⟩] },
       .ok 1) := by
  have h₁ := (coupon_soft_fails_shipping_blocks demoCatalog fakeCouponDatabase
    fakeShippingFeeDatabase demoUser [("A", 5)] (some "123") (some "999") 7 1).1
    (by rfl)
  have h₂ := (coupon_soft_fails_shipping_blocks demoCatalog fakeCouponDatabase
    fakeShippingFeeDatabase demoUser [("A", 5)] (some "999") (some "123") 7 1).2
    ⟨"超商", 60⟩ [⟨"A", "Apple", "img-a", 100, 5⟩] 500
    (by rfl) (by rfl) (by simp) (by rfl)
  exact ⟨h₁, by simpa [demoUser] using h₂⟩

/-! ### Review attachment theorems -/

/-- `Rat.floor` (the program's `parseInt` on a rating in [1,5]) agrees
with the mathematical floor. -/
lemma rat_floor_eq_int_floor (a : Rat) : a.floor = ⌊a⌋ := by
  rw [Rat.floor_def', Rat.floor_def]

/-- C7.  On an order that already carries a non-empty review, every
attach attempt fails and leaves the whole aggregate unchanged — with
`AlreadyExists` whenever the submitted rating passes validation — and
after a detach (which succeeds) a subsequent attach with a valid rating
succeeds. -/
theorem review_attach_once_guard (user : DbUser) (oid : Nat) (o : Order)
    (hord : findOrder user.orders oid = some o)
    (hne : reviewNonEmpty o.review = true) :
    (∀ comment rating images,
        (postReview user oid comment rating images).1 = user ∧
        ∃ e, (postReview user oid comment rating images).2 = .error e) ∧
    (∀ comment (r : Rat) images, 1 ≤ r → r ≤ 5 →
        postReview user oid comment (some r) images =
          (user, .error .reviewExists)) ∧
    ((deleteReview user oid).2 = .ok () ∧
     ∀ comment (r : Rat) images, 1 ≤ r → r ≤ 5 →
        (postReview (deleteReview user oid).1 oid comment (some r) images).2 =
          .ok ()) := by
  have hrev : ∃ rev, o.review = some rev := by
    cases hrv : o.review with
    | none => rw [hrv] at hne; simp [reviewNonEmpty] at hne
    | some rev => exact ⟨rev, rfl⟩
  have hvalid : ∀ (comment : Option String) (r : Rat) (images : List Blob),
      1 ≤ r → r ≤ 5 →
      postReview user oid comment (some r) images =
        (user, .error .reviewExists) := by
    intro comment r images h1 h5
    have hb : ¬(r < 1 ∨ 5 < r) := by push_neg; exact ⟨h1, h5⟩
    simp only [postReview, if_neg hb, hord, if_pos hne]
  refine ⟨?_, hvalid, ?_⟩
  · intro comment rating images
    cases rating with
    | none => exact ⟨rfl, .invalidRating, rfl⟩
    | some r =>
      by_cases hr : r < 1 ∨ 5 < r
      · have heq : postReview user oid comment (some r) images =
            (user, .error .invalidRating) := by
          simp only [postReview, if_pos hr]
        rw [heq]
        exact ⟨rfl, .invalidRating, rfl⟩
      · push_neg at hr
        have := hvalid comment r images hr.1 hr.2
        rw [this]
        exact ⟨rfl, .reviewExists, rfl⟩
  · obtain ⟨rev, hrv⟩ := hrev
    have hdel : deleteReview user oid =
        ({ user with orders := updateOrder user.orders oid (fun o₁ =>
            { o₁ with review := none }) }, .ok ()) := by
      simp only [deleteReview, hord, hrv]
    refine ⟨by rw [hdel], ?_⟩
    intro comment r images h1 h5
    have hb : ¬(r < 1 ∨ 5 < r) := by push_neg; exact ⟨h1, h5⟩
    have hord₁ : findOrder (deleteReview user oid).1.orders oid =
        some { o with review := none } := by
      rw [hdel]
      exact findOrder_updateOrder (fun o₁ => { o₁ with review := none })
        (fun o₁ => rfl) user.orders oid o hord
    simp only [postReview, if_neg hb, hord₁]
    simp [reviewNonEmpty]

/-- C7 witness: the demo order with a stored review rejects a second
attach with `AlreadyExists`, and accepts one after the review is
deleted. -/
theorem review_attach_once_guard_witness :
    postReview demoUserReviewed 1 (some "again") (some (4 : Rat)) [] =
      (demoUserReviewed, .error .reviewExists) ∧
    (postReview (deleteReview demoUserReviewed 1).1 1
        (some "again") (some (4 : Rat)) []).2 = .ok () := by
  have h := review_attach_once_guard demoUserReviewed 1 demoOrderReviewed
    (by simp [findOrder, demoUserReviewed, demoOrderReviewed, demoOrder])
    (by simp [reviewNonEmpty, demoOrderReviewed])
  exact ⟨h.2.1 (some "again") 4 [] (by norm_num) (by norm_num),
    h.2.2.2 (some "again") 4 [] (by norm_num) (by norm_num)⟩

/-- C8 counterexample: the claim says a non-integer rating must fail with
`InvalidRating`, but the handler only checks `isNaN(rating) || rating < 1
|| rating > 5` and then stores `parseInt(rating)`: attaching with rating
3.5 on a review-free order succeeds and stores the integer 3. -/
theorem noninteger_rating_accepted_cex :
    (postReview demoUserOrder 1 none (some (7 / 2 : Rat)) []).2 = .ok () ∧
    findOrder (postReview demoUserOrder 1 none (some (7 / 2 : Rat)) []).1.orders 1 =
      some { demoOrder with review := some ⟨"", some 3, []⟩ } := by
  have hb : ¬((7 / 2 : Rat) < 1 ∨ 5 < (7 / 2 : Rat)) := by norm_num
  have hfl : ((7 / 2 : Rat)).floor = 3 := by
    rw [rat_floor_eq_int_floor,
      show (7 / 2 : Rat) = ((7 : Int) : Rat) / ((2 : Nat) : Rat) by norm_num,
      Rat.floor_intCast_div_natCast]
    rfl
  constructor
  · simp only [postReview, if_neg hb]
    simp [findOrder, demoUserOrder, demoOrder, reviewNonEmpty]
  · simp only [postReview, if_neg hb]
    simp [findOrder, demoUserOrder, demoOrder, reviewNonEmpty, updateOrder, hfl]

/-- C8 (amended).  A missing or non-numeric rating, or a numeric rating
below 1 or above 5, fails with `InvalidRating` and stores nothing; any
numeric rating in [1,5] is accepted and the stored review carries its
integer truncation (`parseInt`), so an integer rating n in [1,5] is
stored as n. -/
theorem rating_validation_amended (user : DbUser) (oid : Nat)
    (comment : Option String) (images : List Blob) :
    (postReview user oid comment none images = (user, .error .invalidRating)) ∧
    (∀ r : Rat, r < 1 ∨ 5 < r →
        postReview user oid comment (some r) images =
          (user, .error .invalidRating)) ∧
    (∀ (r : Rat) (o : Order), 1 ≤ r → r ≤ 5 →
        findOrder user.orders oid = some o →
        reviewNonEmpty o.review = false →
        postReview user oid comment (some r) images =
          ({ user with orders := updateOrder user.orders oid (fun o₁ =>
              { o₁ with
                review := some (Review.mk (comment.getD "") (some r.floor) images) }) },
           .ok ())) ∧
    (∀ (n : Int) (o : Order), 1 ≤ n → n ≤ 5 →
        findOrder user.orders oid = some o →
        reviewNonEmpty o.review = false →
        findOrder (postReview user oid comment (some (n : Rat)) images).1.orders oid =
          some { o with
              review := some (Review.mk (comment.getD "") (some n) images) }) := by
  have hok : ∀ (r : Rat) (o : Order), 1 ≤ r → r ≤ 5 →
      findOrder user.orders oid = some o →
      reviewNonEmpty o.review = false →
      postReview user oid comment (some r) images =
        ({ user with orders := updateOrder user.orders oid (fun o₁ =>
            { o₁ with
              review := some (Review.mk (comment.getD "") (some r.floor) images) }) },
         .ok ()) := by
    intro r o h1 h5 hord hempty
    have hb : ¬(r < 1 ∨ 5 < r) := by push_neg; exact ⟨h1, h5⟩
    simp only [postReview, if_neg hb, hord, hempty, Bool.false_eq_true,
      if_neg (by simp : ¬False)]
  refine ⟨rfl, ?_, hok, ?_⟩
  · intro r hr
    simp only [postReview, if_pos hr]
  · intro n o h1 h5 hord hempty
    have h := hok (n : Rat) o (by exact_mod_cast h1) (by exact_mod_cast h5)
      hord hempty
    rw [h]
    have hfl : ((n : Rat)).floor = n := by
      rw [rat_floor_eq_int_floor]
      exact Int.floor_intCast n
    rw [hfl]
    exact findOrder_updateOrder
      (fun o₁ =>
        { o₁ with
          review := some (Review.mk (comment.getD "") (some n) images) })
      (fun o₁ => rfl) user.orders oid o hord

/-- C8 amended witness: on the review-free demo order, rating 0 is
rejected, rating 3.5 is accepted storing 3, and the integer rating 4 is
stored as 4. -/
theorem rating_validation_amended_witness :
    postReview demoUserOrder 1 none (some (0 : Rat)) [] =
      (demoUserOrder, .error .invalidRating) ∧
    findOrder (postReview demoUserOrder 1 none (some (4 : Rat)) []).1.orders 1 =
      some { demoOrder with review := some ⟨"", some 4, []⟩ } := by
  have h := rating_validation_amended demoUserOrder 1 none []
  refine ⟨h.2.1 0 (by norm_num), ?_⟩
  have h4 := h.2.2.2 4 demoOrder (by norm_num) (by norm_num)
    (by simp [findOrder, demoUserOrder, demoOrder]) (by simp [demoOrder, reviewNonEmpty])
  simpa [demoUserOrder, demoOrder, findOrder, updateOrder] using h4

/-! ### Token service lemmas -/

/-- `findOne({refreshTokens: token})` fails exactly when no user holds
the token. -/
lemma rotateDb_eq_none_iff (tok newTok : String) :
    ∀ db : List DbUser,
      rotateDb tok newTok db = none ↔ ∀ u ∈ db, tok ∉ u.refreshTokens
  | [] => by simp [rotateDb]
  | u :: rest => by
    by_cases hc : u.refreshTokens.contains tok
    · simp only [rotateDb, if_pos hc]
      simp only [List.elem_iff] at hc
      simp [hc]
    · simp only [rotateDb, if_neg hc, Option.map_eq_none']
      rw [rotateDb_eq_none_iff tok newTok rest]
      simp only [List.elem_iff] at hc
      simp [hc]

/-- Decomposition of a successful rotation lookup: the collection splits
at the first holder of the token, and only that user's token set is
rewritten — the old token dropped and the new one pushed in the same
write. -/
lemma rotateDb_some_decomp (tok newTok : String) :
    ∀ db db₁ : List DbUser, rotateDb tok newTok db = some db₁ →
      ∃ pre u post, db = pre ++ u :: post ∧
        (∀ v ∈ pre, tok ∉ v.refreshTokens) ∧ tok ∈ u.refreshTokens ∧
        db₁ = pre ++
          { u with refreshTokens :=
              (u.refreshTokens.filter (fun t => t ≠ tok)) ++ [newTok] } :: post
  | [], db₁, h => by simp [rotateDb] at h
  | u :: rest, db₁, h => by
    by_cases hc : u.refreshTokens.contains tok
    · simp only [rotateDb, if_pos hc, Option.some.injEq] at h
      exact ⟨[], u, rest, by simp, by simp, by simpa [List.elem_iff] using hc,
        by simp [h.symm]⟩
    · simp only [rotateDb, if_neg hc, Option.map_eq_some'] at h
      obtain ⟨rest₁, hrest, hdb₁⟩ := h
      obtain ⟨pre, u₀, post, hsplit, hpre, hmem, hrest₁⟩ :=
        rotateDb_some_decomp tok newTok rest rest₁ hrest
      refine ⟨u :: pre, u₀, post, by simp [hsplit], ?_, hmem, by simp [← hdb₁, hrest₁]⟩
      intro v hv
      rcases List.mem_cons.1 hv with rfl | hv
      · simpa [List.elem_iff] using hc
      · exact hpre v hv

/-- After a rotation in a collection where at most one user holds the
old token, no user holds it any more (the pushed token differs from the
removed one). -/
lemma rotateDb_removes (tok newTok : String) (db db₁ : List DbUser)
    (h : rotateDb tok newTok db = some db₁) (hne : newTok ≠ tok)
    (huniq : (db.filter (fun u => u.refreshTokens.contains tok)).length ≤ 1) :
    ∀ u₁ ∈ db₁, tok ∉ u₁.refreshTokens := by
  obtain ⟨pre, u, post, hsplit, hpre, hmem, hdb₁⟩ :=
    rotateDb_some_decomp tok newTok db db₁ h
  have hpost : ∀ v ∈ post, tok ∉ v.refreshTokens := by
    intro v hv hvtok
    have hfil : 2 ≤ (db.filter (fun u => u.refreshTokens.contains tok)).length := by
      subst hsplit
      rw [List.filter_append, List.filter_cons]
      have h1 : (u.refreshTokens.contains tok) = true := by
        simpa [List.elem_iff] using hmem
      have h2 : v ∈ post.filter (fun u => u.refreshTokens.contains tok) :=
        List.mem_filter.2 ⟨hv, by simpa [List.elem_iff] using hvtok⟩
      have h3 : 1 ≤ (post.filter (fun u => u.refreshTokens.contains tok)).length :=
        List.length_pos.2 (List.ne_nil_of_mem h2)
      simp only [h1, if_pos]
      rw [List.length_append, List.length_cons]
      omega
    omega
  intro u₁ hu₁
  rw [hdb₁] at hu₁
  rcases List.mem_append.1 hu₁ with hu₁ | hu₁
  · exact hpre u₁ hu₁
  · rcases List.mem_cons.1 hu₁ with rfl | hu₁
    · intro hbad
      rcases List.mem_append.1 hbad with hbad | hbad
      · have hdec := (List.mem_filter.1 hbad).2
        simp at hdec
      · exact hne (List.mem_singleton.1 hbad).symm
    · exact hpost u₁ hu₁

/-- `findOne({email})` then password check: decomposition of a successful
login at the first user with the matching email. -/
lemma loginDb_some_decomp (check : String → String → Bool)
    (email pw newTok : String) :
    ∀ db db₁ : List DbUser, loginDb check email pw newTok db = .ok db₁ →
      ∃ pre u post, db = pre ++ u :: post ∧
        (∀ v ∈ pre, v.email ≠ email) ∧ u.email = email ∧
        check pw u.password = true ∧
        db₁ = pre ++
          { u with refreshTokens := u.refreshTokens ++ [newTok] } :: post
  | [], db₁, h => by simp [loginDb] at h
  | u :: rest, db₁, h => by
    by_cases he : u.email = email
    · rw [loginDb, if_pos he] at h
      by_cases hp : check pw u.password
      · rw [if_pos hp] at h
        cases h
        exact ⟨[], u, rest, by simp, by simp, he, hp, by simp⟩
      · rw [if_neg hp] at h
        cases h
    · rw [loginDb, if_neg he] at h
      cases hrest : loginDb check email pw newTok rest with
      | error e => rw [hrest] at h; cases h
      | ok rest₁ =>
        rw [hrest] at h
        cases h
        obtain ⟨pre, u₀, post, hsplit, hpre, hemail, hcheck, hrest₁⟩ :=
          loginDb_some_decomp check email pw newTok rest rest₁ hrest
        refine ⟨u :: pre, u₀, post, by simp [hsplit], ?_, hemail, hcheck,
          by simp [hrest₁]⟩
        intro v hv
        rcases List.mem_cons.1 hv with rfl | hv
        · exact he
        · exact hpre v hv

/-- `findOne({refreshTokens: token})` for logout fails exactly when no
user holds the token. -/
lemma logoutDb_eq_none_iff (tok : String) :
    ∀ db : List DbUser,
      logoutDb tok db = none ↔ ∀ u ∈ db, tok ∉ u.refreshTokens
  | [] => by simp [logoutDb]
  | u :: rest => by
    by_cases hc : u.refreshTokens.contains tok
    · simp only [logoutDb, if_pos hc]
      simp only [List.elem_iff] at hc
      simp [hc]
    · simp only [logoutDb, if_neg hc, Option.map_eq_none']
      rw [logoutDb_eq_none_iff tok rest]
      simp only [List.elem_iff] at hc
      simp [hc]

/-- Decomposition of a successful logout at the first holder of the
token. -/
lemma logoutDb_some_decomp (tok : String) :
    ∀ db db₁ : List DbUser, logoutDb tok db = some db₁ →
      ∃ pre u post, db = pre ++ u :: post ∧
        (∀ v ∈ pre, tok ∉ v.refreshTokens) ∧ tok ∈ u.refreshTokens ∧
        db₁ = pre ++
          { u with refreshTokens := u.refreshTokens.filter (fun t => t ≠ tok) } :: post
  | [], db₁, h => by simp [logoutDb] at h
  | u :: rest, db₁, h => by
    by_cases hc : u.refreshTokens.contains tok
    · simp only [logoutDb, if_pos hc, Option.some.injEq] at h
      exact ⟨[], u, rest, by simp, by simp, by simpa [List.elem_iff] using hc,
        by simp [h.symm]⟩
    · simp only [logoutDb, if_neg hc, Option.map_eq_some'] at h
      obtain ⟨rest₁, hrest, hdb₁⟩ := h
      obtain ⟨pre, u₀, post, hsplit, hpre, hmem, hrest₁⟩ :=
        logoutDb_some_decomp tok rest rest₁ hrest
      refine ⟨u :: pre, u₀, post, by simp [hsplit], ?_, hmem, by simp [← hdb₁, hrest₁]⟩
      intro v hv
      rcases List.mem_cons.1 hv with rfl | hv
      · simpa [List.elem_iff] using hc
      · exact hpre v hv

/-- After a logout in a collection where at most one user holds the
token, no user holds it any more. -/
lemma logoutDb_removes (tok : String) (db db₁ : List DbUser)
    (h : logoutDb tok db = some db₁)
    (huniq : (db.filter (fun u => u.refreshTokens.contains tok)).length ≤ 1) :
    ∀ u₁ ∈ db₁, tok ∉ u₁.refreshTokens := by
  obtain ⟨pre, u, post, hsplit, hpre, hmem, hdb₁⟩ :=
    logoutDb_some_decomp tok db db₁ h
  have hpost : ∀ v ∈ post, tok ∉ v.refreshTokens := by
    intro v hv hvtok
    have hfil : 2 ≤ (db.filter (fun u => u.refreshTokens.contains tok)).length := by
      subst hsplit
      rw [List.filter_append, List.filter_cons]
      have h1 : (u.refreshTokens.contains tok) = true := by
        simpa [List.elem_iff] using hmem
      have h2 : v ∈ post.filter (fun u => u.refreshTokens.contains tok) :=
        List.mem_filter.2 ⟨hv, by simpa [List.elem_iff] using hvtok⟩
      have h3 : 1 ≤ (post.filter (fun u => u.refreshTokens.contains tok)).length :=
        List.length_pos.2 (List.ne_nil_of_mem h2)
      simp only [h1, if_pos]
      rw [List.length_append, List.length_cons]
      omega
    omega
  intro u₁ hu₁
  rw [hdb₁] at hu₁
  rcases List.mem_append.1 hu₁ with hu₁ | hu₁
  · exact hpre u₁ hu₁
  · rcases List.mem_cons.1 hu₁ with rfl | hu₁
    · intro hbad
      have hdec := (List.mem_filter.1 hbad).2
      simp at hdec
    · exact hpost u₁ hu₁

/-- C1.  A successful `rotate(oldToken)` removes the old token and
pushes the new one in the single persisted write of the owning user's
aggregate; afterwards the old token identifies no user and fails any
subsequent rotation, while the new token identifies its user and is
valid for exactly one next rotation (it succeeds once and is removed by
that success).  The collection is assumed to hold the old token at most
once and the fresh token not at all, as JWT signing over distinct
payloads guarantees. -/
theorem rotate_removes_old_and_inserts_new
    (vf : String → Bool) (db db₁ : List DbUser) (tok newTok ret : String)
    (hrun : rotate vf db tok newTok = .ok (db₁, ret))
    (hfresh : ∀ u ∈ db, newTok ∉ u.refreshTokens)
    (huniq : (db.filter (fun u => u.refreshTokens.contains tok)).length ≤ 1) :
    ret = newTok ∧
    (∃ pre u post, db = pre ++ u :: post ∧ tok ∈ u.refreshTokens ∧
        db₁ = pre ++
          { u with refreshTokens :=
              (u.refreshTokens.filter (fun t => t ≠ tok)) ++ [newTok] } :: post) ∧
    (∀ u₁ ∈ db₁, tok ∉ u₁.refreshTokens) ∧
    (∀ x, rotate vf db₁ tok x = .error .forbidden) ∧
    (∃ u₁ ∈ db₁, newTok ∈ u₁.refreshTokens) ∧
    (vf newTok = true → newTok ≠ "" →
        ∀ x, ∃ db₂, rotate vf db₁ newTok x = .ok (db₂, x)) ∧
    (∀ x db₂ r₂, rotate vf db₁ newTok x = .ok (db₂, r₂) → x ≠ newTok →
        ∀ u₂ ∈ db₂, newTok ∉ u₂.refreshTokens) := by
  by_cases htok : tok = ""
  · simp [rotate, htok] at hrun
  cases hrot : rotateDb tok newTok db with
  | none => simp [rotate, htok, hrot] at hrun
  | some db₁h =>
    by_cases hvf : vf tok = true
    all_goals simp only [rotate, if_neg htok, hrot, hvf] at hrun
    case neg => simp at hrun
    simp only [if_true, Except.ok.injEq, Prod.mk.injEq] at hrun
    obtain ⟨hdbeq, hret⟩ := hrun
    subst hdbeq
    subst hret
    obtain ⟨pre, u, post, hsplit, hpre, hmem, hdb₁⟩ :=
      rotateDb_some_decomp tok newTok db db₁h hrot
    have humem : u ∈ db := by rw [hsplit]; simp
    have hneq : newTok ≠ tok := fun h => hfresh u humem (h ▸ hmem)
    have hremoved : ∀ u₁ ∈ db₁h, tok ∉ u₁.refreshTokens :=
      rotateDb_removes tok newTok db db₁h hrot hneq huniq
    have hnewmem : ∃ u₁ ∈ db₁h, newTok ∈ u₁.refreshTokens := by
      refine ⟨{ u with refreshTokens :=
          (u.refreshTokens.filter (fun t => t ≠ tok)) ++ [newTok] }, ?_, by simp⟩
      rw [hdb₁]
      exact List.mem_append_right pre (List.mem_cons_self _ _)
    have huniqNew : (db₁h.filter (fun u => u.refreshTokens.contains newTok)).length ≤ 1 := by
      rw [hdb₁, List.filter_append, List.filter_cons]
      have hprefil : pre.filter (fun u => u.refreshTokens.contains newTok) = [] := by
        rw [List.filter_eq_nil_iff]
        intro v hv
        simp only [List.elem_iff, Bool.not_eq_true]
        exact fun h => hfresh v (by rw [hsplit]; simp [hv]) (by simpa [List.elem_iff] using h)
      have hpostfil : post.filter (fun u => u.refreshTokens.contains newTok) = [] := by
        rw [List.filter_eq_nil_iff]
        intro v hv
        exact fun h => hfresh v (by rw [hsplit]; simp [hv]) (by simpa [List.elem_iff] using h)
      rw [hprefil, hpostfil]
      split <;> simp
    refine ⟨rfl, ⟨pre, u, post, hsplit, hmem, hdb₁⟩, hremoved, ?_, hnewmem, ?_, ?_⟩
    · intro x
      have hnone : rotateDb tok x db₁h = none :=
        (rotateDb_eq_none_iff tok x db₁h).2 hremoved
      simp [rotate, htok, hnone]
    · intro hvfn hne x
      cases hrot₂ : rotateDb newTok x db₁h with
      | none =>
        obtain ⟨u₁, hu₁, hmem₁⟩ := hnewmem
        exact absurd ((rotateDb_eq_none_iff newTok x db₁h).1 hrot₂ u₁ hu₁) (by simp [hmem₁])
      | some db₂ =>
        exact ⟨db₂, by simp [rotate, hne, hrot₂, hvfn]⟩
    · intro x db₂ r₂ hrun₂ hxne u₂ hu₂
      by_cases hne : newTok = ""
      · simp [rotate, hne] at hrun₂
      cases hrot₂ : rotateDb newTok x db₁h with
      | none => simp [rotate, hne, hrot₂] at hrun₂
      | some db₂h =>
        by_cases hvfn : vf newTok = true
        all_goals simp only [rotate, if_neg hne, hrot₂, hvfn] at hrun₂
        case neg => simp at hrun₂
        simp only [if_true, Except.ok.injEq, Prod.mk.injEq] at hrun₂
        obtain ⟨hdb₂, -⟩ := hrun₂
        subst hdb₂
        exact rotateDb_removes newTok x db₁h db₂h hrot₂ hxne huniqNew u₂ hu₂

/-- C1 witness: rotating "t1" to "t2" on a one-user collection holding
only "t1" leaves "t1" unable to drive a further rotation. -/
theorem rotate_removes_old_and_inserts_new_witness :
    rotate (fun _ => true) [DbUser.mk "e" "h" [] [] ["t1"]] "t1" "t2" =
      .ok ([DbUser.mk "e" "h" [] [] ["t2"]], "t2") ∧
    rotate (fun _ => true) [DbUser.mk "e" "h" [] [] ["t2"]] "t1" "t3" =
      .error .forbidden := by
  refine ⟨by rfl, ?_⟩
  exact (rotate_removes_old_and_inserts_new (fun _ => true)
    [DbUser.mk "e" "h" [] [] ["t1"]] [DbUser.mk "e" "h" [] [] ["t2"]]
    "t1" "t2" "t2" (by rfl) (by simp) (by simp)).2.2.2.1 "t3"

/-- C2.  `revoke(token)` errors exactly when no user holds the token;
on success it rewrites only the owner's aggregate, filtering the token
out of the owner's set; filtering a set that does not hold the token is
a no-op; and a repeat revoke of the same single-owner token errors,
since after the removal no user holds it — the claim's own "unless no
user holds the token" case. -/
theorem logout_error_iff_unknown_token (db : List DbUser) (tok : String)
    (htok : tok ≠ "") :
    ((∃ e, logout db tok = .error e) ↔ ∀ u ∈ db, tok ∉ u.refreshTokens) ∧
    (∀ u : DbUser, tok ∉ u.refreshTokens →
        u.refreshTokens.filter (fun t => t ≠ tok) = u.refreshTokens) ∧
    (∀ db₁, logout db tok = .ok db₁ →
        ∃ pre u post, db = pre ++ u :: post ∧ tok ∈ u.refreshTokens ∧
          tok ∉ u.refreshTokens.filter (fun t => t ≠ tok) ∧
          db₁ = pre ++
            { u with refreshTokens :=
                u.refreshTokens.filter (fun t => t ≠ tok) } :: post) ∧
    (∀ db₁, logout db tok = .ok db₁ →
        (db.filter (fun u => u.refreshTokens.contains tok)).length ≤ 1 →
        logout db₁ tok = .error .forbidden) := by
  refine ⟨?_, ?_, ?_, ?_⟩
  · constructor
    · rintro ⟨e, he⟩
      cases hlg : logoutDb tok db with
      | none => exact (logoutDb_eq_none_iff tok db).1 hlg
      | some db₁ => simp [logout, htok, hlg] at he
    · intro hall
      exact ⟨.forbidden, by
        simp [logout, htok, (logoutDb_eq_none_iff tok db).2 hall]⟩
  · intro u hu
    rw [List.filter_eq_self]
    intro a ha
    simp only [ne_eq, decide_not, Bool.not_eq_eq_eq_not, Bool.not_true,
      decide_eq_false_iff_not]
    exact fun h => hu (h ▸ ha)
  · intro db₁ hrun
    cases hlg : logoutDb tok db with
    | none => simp [logout, htok, hlg] at hrun
    | some db₁h =>
      simp only [logout, if_neg htok, hlg, Except.ok.injEq] at hrun
      subst hrun
      obtain ⟨pre, u, post, hsplit, hpre, hmem, hdb₁⟩ :=
        logoutDb_some_decomp tok db db₁h hlg
      refine ⟨pre, u, post, hsplit, hmem, ?_, hdb₁⟩
      intro hbad
      have hdec := (List.mem_filter.1 hbad).2
      simp at hdec
  · intro db₁ hrun huniq
    cases hlg : logoutDb tok db with
    | none => simp [logout, htok, hlg] at hrun
    | some db₁h =>
      simp only [logout, if_neg htok, hlg, Except.ok.injEq] at hrun
      subst hrun
      have hrem := logoutDb_removes tok db db₁h hlg huniq
      have hnone : logoutDb tok db₁h = none :=
        (logoutDb_eq_none_iff tok db₁h).2 hrem
      simp [logout, htok, hnone]

/-- C2 witness: revoking "t1" from its single holder succeeds, and the
repeat revoke errors because no user holds "t1" any more. -/
theorem logout_error_iff_unknown_token_witness :
    logout [DbUser.mk "e" "h" [] [] ["t1"]] "t1" =
      .ok [DbUser.mk "e" "h" [] [] []] ∧
    logout [DbUser.mk "e" "h" [] [] []] "t1" = .error .forbidden := by
  refine ⟨by rfl, ?_⟩
  exact (logout_error_iff_unknown_token [DbUser.mk "e" "h" [] [] ["t1"]] "t1"
    (by decide)).2.2.2 [DbUser.mk "e" "h" [] [] []] (by rfl) (by simp)

/-- C10.  A successful login rewrites exactly one user — the first with
the matching email, whose password check passed — appending exactly one
fresh refresh token to that user's set while keeping the email, password
hash, cart, orders and all previously stored refresh tokens. -/
theorem login_appends_single_token
    (check : String → String → Bool) (db db₁ : List DbUser)
    (email pw newTok ret : String)
    (hrun : login check db email pw newTok = .ok (db₁, ret)) :
    ret = newTok ∧
    ∃ pre u post u₁, db = pre ++ u :: post ∧ db₁ = pre ++ u₁ :: post ∧
      (∀ v ∈ pre, v.email ≠ email) ∧
      u.email = email ∧ check pw u.password = true ∧
      u₁.email = u.email ∧ u₁.password = u.password ∧
      u₁.cart = u.cart ∧ u₁.orders = u.orders ∧
      u₁.refreshTokens = u.refreshTokens ++ [newTok] := by
  cases hlg : loginDb check email pw newTok db with
  | error e => simp [login, hlg] at hrun
  | ok db₁h =>
    simp only [login, hlg, Except.ok.injEq, Prod.mk.injEq] at hrun
    obtain ⟨hdbeq, hret⟩ := hrun
    subst hdbeq
    subst hret
    obtain ⟨pre, u, post, hsplit, hpre, hemail, hcheck, hdb₁⟩ :=
      loginDb_some_decomp check email pw newTok db db₁h hlg
    exact ⟨rfl, pre, u, post,
      { u with refreshTokens := u.refreshTokens ++ [newTok] },
      hsplit, hdb₁, hpre, hemail, hcheck, rfl, rfl, rfl, rfl, rfl⟩

/-- C10 witness: a login with matching credentials on a one-user
collection holding one session token appends exactly the fresh token. -/
theorem login_appends_single_token_witness :
    login (fun _ _ => true) [DbUser.mk "a@b.c" "hash" [] [] ["t0"]]
        "a@b.c" "pw" "t9" =
      .ok ([DbUser.mk "a@b.c" "hash" [] [] ["t0", "t9"]], "t9") ∧
    ("t9" : String) = "t9" := by
  refine ⟨by rfl, ?_⟩
  exact (login_appends_single_token (fun _ _ => true)
    [DbUser.mk "a@b.c" "hash" [] [] ["t0"]]
    [DbUser.mk "a@b.c" "hash" [] [] ["t0", "t9"]]
    "a@b.c" "pw" "t9" "t9" (by rfl)).1

end EasyBuy
